import Mathlib

/-!
Notes app (`notes app/app.js`): note store, persistence, rendered list.

A shallow embedding of the event handlers of `app.js`.

* JavaScript strings are Lean strings; `trim` and `includes` are written out,
  `toLowerCase`, `JSON.stringify` and `JSON.parse` are platform functions and
  are taken as the fields of a `Platform`.
* A timestamp is the time value (milliseconds since the epoch) of the `Date`
  whose `toISOString()` text the record holds; `new Date(text)` gives that time
  value back, so the comparator of `renderNotes` subtracts time values.
* The handlers run to completion one at a time, so each is a function from the
  state before to the state after; what the user typed and what the clock
  showed are arguments.
-/

namespace NotesApp

/-! ## Data model -/

/-- A note record `{id, title, body, createdAt, updatedAt}`. -/
structure Note where
  id : String
  title : String
  body : String
  createdAt : Nat
  updatedAt : Nat
deriving DecidableEq, Repr

/-- What `JSON.parse` may return, as far as line 17 tells values apart:
a falsy value (`null`, `false`, `0`, the empty string), an array of note
records, or some other truthy value. -/
inductive JSValue where
  | falsy
  | array (ns : List Note)
  | other
deriving DecidableEq, Repr

/-- Truthiness of a parsed value (every array is truthy, the empty one too). -/
def JSValue.truthy : JSValue → Bool
  | .falsy => false
  | .array _ => true
  | .other => true

/-- The platform functions the app calls. `parse` is `JSON.parse`: it throws a
`SyntaxError` (here `Except.error`) on a text that is not JSON. -/
structure Platform where
  toLowerCase : String → String
  stringify : List Note → String
  parse : String → Except String JSValue

/-- The mutable state of the page: the two variables of lines 17-18, the search
box, the modal, the cards shown in the container, the `"notes"` item of
`localStorage`, and the values handed to `setItem('notes', _)` so far (oldest
first). -/
structure State where
  notes : List Note
  currentNoteId : Option String
  searchInput : String
  modalOpen : Bool
  rendered : List Note
  storedNotes : Option String
  writes : List String
deriving DecidableEq, Repr

/-! ## String primitives -/

/-- The code points `String.prototype.trim` strips: ECMAScript `WhiteSpace`
and `LineTerminator`. -/
def isWhiteSpace (c : Char) : Bool :=
  let n := c.toNat
  n == 0x09 || n == 0x0A || n == 0x0B || n == 0x0C || n == 0x0D || n == 0x20 ||
  n == 0xA0 || n == 0x1680 || (0x2000 ≤ n && n ≤ 0x200A) || n == 0x2028 ||
  n == 0x2029 || n == 0x202F || n == 0x205F || n == 0x3000 || n == 0xFEFF

/-- The method `String.prototype.trim`: white space removed from both ends. -/
def trim (s : String) : String :=
  ⟨((s.data.dropWhile isWhiteSpace).reverse.dropWhile isWhiteSpace).reverse⟩

/-- Whether the characters `q` stand at the start of `t`. -/
def startsWith : List Char → List Char → Bool
  | _, [] => true
  | [], _ :: _ => false
  | c :: t, d :: q => c == d && startsWith t q

/-- Whether `q` occurs in `t` at some position (the search of
`String.prototype.includes`, position by position from the left). -/
def occursIn (q : List Char) : List Char → Bool
  | [] => startsWith [] q
  | c :: t => startsWith (c :: t) q || occursIn q t

/-- The call `s.includes(q)`. -/
def includes (s q : String) : Bool :=
  occursIn q.data s.data

/-- A string is truthy when it is not empty. -/
def truthy (s : String) : Bool :=
  s != ""

/-! ## Arrays -/

/-- The method `Array.prototype.findIndex`; `none` stands for `-1`. -/
def findIndex (p : Note → Bool) : List Note → Option Nat
  | [] => none
  | n :: ns => if p n then some 0 else (findIndex p ns).map (· + 1)

/-- Insertion of `x` in front of a list already in comparator order, `x` having
stood before all of it: `x` goes before `y` unless `cmp x y > 0`. -/
def insertSorted {α : Type} (cmp : α → α → Int) (x : α) : List α → List α
  | [] => [x]
  | y :: ys => if cmp x y ≤ 0 then x :: y :: ys else y :: insertSorted cmp x ys

/-- The method `Array.prototype.sort(cmp)`, which is stable: elements the
comparator calls equal keep their order. The notes are taken from the right and
each is put in its place among those after it; `desc_stable_unique` below shows
that the result does not depend on how a stable sort goes about it. -/
def sort {α : Type} (cmp : α → α → Int) : List α → List α
  | [] => []
  | x :: xs => insertSorted cmp x (sort cmp xs)

/-- The comparator of line 79: `new Date(b.updatedAt) - new Date(a.updatedAt)`. -/
def byUpdatedDesc (a b : Note) : Int :=
  (b.updatedAt : Int) - (a.updatedAt : Int)

/-! ## The handlers -/

/-- Line 17: `JSON.parse(localStorage.getItem('notes')) || []`. `getItem` gives
`null` for an absent item, which `JSON.parse` reads as the text `null`. The
result is the value of the variable `notes`. -/
def loadNotes (P : Platform) (item : Option String) : Except String JSValue :=
  match P.parse (item.getD "null") with
  | .error e => .error e
  | .ok v => .ok (if v.truthy then v else .array [])

/-- The predicate of the `filter` of lines 72-76. -/
def matchesQuery (P : Platform) (searchQuery : String) (note : Note) : Bool :=
  let titleMatch := includes (P.toLowerCase note.title) searchQuery
  let bodyMatch := includes (P.toLowerCase note.body) searchQuery
  titleMatch || bodyMatch

/-- The array `filteredNotes` of `renderNotes` after the sort of line 79: the
notes for which cards are appended, in order. -/
def listedNotes (P : Platform) (notes : List Note) (searchQuery : String) : List Note :=
  sort byUpdatedDesc (notes.filter (matchesQuery P searchQuery))

/-- The function `renderNotes(searchQuery)`: the container is emptied and
refilled with the cards of the listed notes. -/
def renderNotes (P : Platform) (s : State) (searchQuery : String) : State :=
  { s with rendered := listedNotes P s.notes searchQuery }

/-- The `input` listener of the search box, lines 40-43. -/
def onSearchInput (P : Platform) (s : State) (value : String) : State :=
  let query := P.toLowerCase value
  renderNotes P { s with searchInput := value } query

/-- The function `openModal(note)`; `none` is the call without argument. -/
def openModal (s : State) (note : Option Note) : State :=
  { s with currentNoteId := note.map (·.id), modalOpen := true }

/-- The function `closeModal()`. -/
def closeModal (s : State) : State :=
  { s with modalOpen := false }

/-- The function `saveToLocalStorage()`. -/
def saveToLocalStorage (P : Platform) (s : State) : State :=
  { s with storedNotes := some (P.stringify s.notes),
           writes := s.writes ++ [P.stringify s.notes] }

/-- The note `{...n, title, body, updatedAt: now}` of line 160. -/
def Note.edited (n : Note) (title body : String) (now : Nat) : Note :=
  { n with title := title, body := body, updatedAt := now }

/-- Lines 158-161: the note found by `findIndex` is replaced, nothing happens
when `findIndex` gives `-1`. -/
def updateNotes (notes : List Note) (cur title body : String) (now : Nat) : List Note :=
  match findIndex (fun n => n.id == cur) notes with
  | some index => notes.modify (fun n => n.edited title body now) index
  | none => notes

/-- The object `newNote` of lines 164-170; `Date.now().toString()` is the
decimal text of the reading. -/
def newNote (title body : String) (now idNow : Nat) : Note :=
  { id := toString idNow, title := title, body := body, createdAt := now, updatedAt := now }

/-- The array `notes` after lines 156-172. The test `if (currentNoteId)` fails
for `null` and for the empty string. -/
def savedNotes (s : State) (title body : String) (now idNow : Nat) : List Note :=
  match s.currentNoteId.filter truthy with
  | some cur => updateNotes s.notes cur title body now
  | none => s.notes ++ [newNote title body now idNow]

/-- The handler `saveNote()`. `titleInput` and `bodyInput` are the values of the two inputs
of the modal, `now` is the time value of `new Date()` at line 154 and `idNow`
what `Date.now()` gives at line 165 if that line is reached. -/
def saveNote (P : Platform) (s : State) (titleInput bodyInput : String)
    (now idNow : Nat) : State :=
  let title := trim titleInput
  let body := trim bodyInput
  if !truthy title && !truthy body then
    closeModal s
  else
    closeModal (renderNotes P
      (saveToLocalStorage P { s with notes := savedNotes s title body now idNow })
      (P.toLowerCase s.searchInput))

/-- The handler `deleteNote()`; `confirmed` is the answer the user gives to
`confirm` when it is called. -/
def deleteNote (P : Platform) (s : State) (confirmed : Bool) : State :=
  match s.currentNoteId.filter truthy with
  | some cur =>
    if confirmed then
      let notes := s.notes.filter (fun n => n.id != cur)
      closeModal (renderNotes P (saveToLocalStorage P { s with notes := notes })
        (P.toLowerCase s.searchInput))
    else s
  | none => s

/-! ## The store operations, as runs of the handlers -/

/-- The state while the note with identifier `id` is open in the modal: what
`openModal(note)` leaves when `note.id` is `id`. -/
def editing (s : State) (id : String) : State :=
  { s with currentNoteId := some id, modalOpen := true }

/-- Creation: the add button (`openModal()`), then the save button. -/
def create (P : Platform) (s : State) (title body : String) (now idNow : Nat) : State :=
  saveNote P (openModal s none) title body now idNow

/-- Update of the note `id`: its card is opened, then the save button. -/
def update (P : Platform) (s : State) (id title body : String) (now idNow : Nat) : State :=
  saveNote P (editing s id) title body now idNow

/-- Deletion of the note `id`: its card is opened, then the delete button, and
the user answers yes if asked. -/
def delete (P : Platform) (s : State) (id : String) : State :=
  deleteNote P (editing s id) true

/-- One store operation together with what the clock shows while it runs. -/
inductive Op where
  | create (title body : String) (now idNow : Nat)
  | update (id title body : String) (now idNow : Nat)
  | delete (id : String)
deriving DecidableEq, Repr

/-- The state after one operation. -/
def step (P : Platform) (s : State) : Op → State
  | .create title body now idNow => create P s title body now idNow
  | .update id title body now idNow => update P s id title body now idNow
  | .delete id => delete P s id

/-- The state after a sequence of operations, first operation first. -/
def run (P : Platform) (s : State) (ops : List Op) : State :=
  ops.foldl (step P) s

/-- The readings of `new Date()` a sequence of operations is given, in order. -/
def clockReadings : List Op → List Nat
  | [] => []
  | .create _ _ now _ :: ops => now :: clockReadings ops
  | .update _ _ _ now _ :: ops => now :: clockReadings ops
  | .delete _ :: ops => clockReadings ops

/-- The readings of `Date.now()` given to the operations that take the creating
branch of `saveNote`: every creation, and every update whose identifier is the
empty string. -/
def idReadings : List Op → List Nat
  | [] => []
  | .create _ _ _ idNow :: ops => idNow :: idReadings ops
  | .update id _ _ _ idNow :: ops =>
    if truthy id then idReadings ops else idNow :: idReadings ops
  | .delete _ :: ops => idReadings ops

/-! ## Data for the worked examples -/

/-- The note used in the worked examples. -/
def noteA : Note := { id := "1", title := "a", body := "b", createdAt := 1, updatedAt := 1 }

/-- The JSON text of the array holding `noteA` alone, as `JSON.stringify`
writes it. -/
def storedNoteA : String :=
  "[\x7b\"id\":\"1\",\"title\":\"a\",\"body\":\"b\"," ++
  "\"createdAt\":\"1970-01-01T00:00:00.001Z\"," ++
  "\"updatedAt\":\"1970-01-01T00:00:00.001Z\"\x7d]"

/-- A platform for the worked examples: lower-casing of the ASCII letters, a
writer that lists the fields of each note, and a reader that knows the texts
`null`, `[]` and `storedNoteA` and, like `JSON.parse`, throws on the text that
is a lone opening brace. -/
def samplePlatform : Platform where
  toLowerCase := fun s => ⟨s.data.map Char.toLower⟩
  stringify := fun ns =>
    "[" ++ String.intercalate "," (ns.map fun n =>
      "\x7b" ++ String.intercalate "," [n.id, n.title, n.body, toString n.createdAt,
        toString n.updatedAt] ++ "\x7d") ++ "]"
  parse := fun text =>
    if text = "null" then .ok .falsy
    else if text = "[]" then .ok (.array [])
    else if text = storedNoteA then .ok (.array [noteA])
    else .error "SyntaxError"

/-- The state of a page that has just loaded an empty collection. -/
def emptyState : State :=
  { notes := [], currentNoteId := none, searchInput := "", modalOpen := false,
    rendered := [], storedNotes := none, writes := [] }

/-- A state holding the notes `ns`, nothing else having happened. -/
def stateOf (ns : List Note) : State :=
  { emptyState with notes := ns }

/-- A note whose identifier is the empty string, as a stored collection may hold. -/
def noteE : Note := { id := "", title := "a", body := "b", createdAt := 1, updatedAt := 1 }

/-- The first of three notes stored in this order with `updatedAt` 1, 3 and 2. -/
def noteT1 : Note := { id := "10", title := "first", body := "", createdAt := 1, updatedAt := 1 }

/-- The note with the latest `updatedAt` of the three. -/
def noteT3 : Note := { id := "11", title := "second", body := "", createdAt := 3, updatedAt := 3 }

/-- The note with the middle `updatedAt` of the three. -/
def noteT2 : Note := { id := "12", title := "third", body := "", createdAt := 2, updatedAt := 2 }

/-! ## Auxiliary definitions for the proofs -/

/-- The number a list of decimal digit characters stands for. -/
def digitsValue (cs : List Char) : Nat :=
  cs.foldl (fun a c => 10 * a + (c.toNat - 48)) 0

/-! # Theorems -/

/-! ## Loading -/

theorem loadNotes_ok_iff (P : Platform) (item : Option String) :
    (∃ v, loadNotes P item = .ok v) ↔ ∃ v, P.parse (item.getD "null") = .ok v := by
  unfold loadNotes
  cases h : P.parse (item.getD "null") with
  | error e => simp
  | ok v => simp

/-- C1, as amended: with the item absent the initial collection is defined and
is the empty one (`JSON.parse` is then given `null`, which it reads as `null`);
with a text that is a valid JSON array of notes it is defined and is that
array; with a text that is not parsable as JSON line 17 throws the
`SyntaxError` of `JSON.parse`, so that no collection is defined, the empty one
no more than another. -/
theorem loadNotes_defined_unless_unparsable (P : Platform)
    (hnull : P.parse "null" = .ok .falsy) :
    loadNotes P none = .ok (.array []) ∧
    (∀ text ns, P.parse text = .ok (.array ns) →
      loadNotes P (some text) = .ok (.array ns)) ∧
    (∀ text e, P.parse text = .error e →
      loadNotes P (some text) = .error e ∧ ∀ v, loadNotes P (some text) ≠ .ok v) := by
  refine ⟨?_, ?_, ?_⟩
  · simp [loadNotes, hnull, JSValue.truthy]
  · intro text ns h
    simp [loadNotes, h, JSValue.truthy]
  · intro text e h
    have he : loadNotes P (some text) = .error e := by simp [loadNotes, h]
    refine ⟨he, ?_⟩
    intro v hv
    rw [he] at hv
    cases hv

theorem loadNotes_defined_unless_unparsable_witness :
    samplePlatform.parse "null" = .ok .falsy ∧
    loadNotes samplePlatform none = .ok (.array []) ∧
    samplePlatform.parse storedNoteA = .ok (.array [noteA]) ∧
    loadNotes samplePlatform (some storedNoteA) = .ok (.array [noteA]) :=
  ⟨rfl, (loadNotes_defined_unless_unparsable samplePlatform rfl).1, rfl,
    (loadNotes_defined_unless_unparsable samplePlatform rfl).2.1 storedNoteA [noteA] rfl⟩

/-- C1 fails as stated: with the text of a lone opening brace in the item,
which is not JSON, line 17 throws the `SyntaxError` of `JSON.parse`; the
result is not the empty collection, nor any collection. -/
theorem loadNotes_throws_on_unparsable :
    loadNotes samplePlatform (some "\x7b") = .error "SyntaxError" ∧
    ∀ ns, loadNotes samplePlatform (some "\x7b") ≠ .ok (.array ns) := by
  refine ⟨rfl, ?_⟩
  intro ns h
  have h' : (Except.error "SyntaxError" : Except String JSValue) = .ok (.array ns) := h
  cases h'

/-! ## The save handler, branch by branch -/

theorem saveNote_of_blank (P : Platform) (s : State) (t b : String) (now idNow : Nat)
    (ht : trim t = "") (hb : trim b = "") : saveNote P s t b now idNow = closeModal s := by
  simp [saveNote, ht, hb, truthy]

theorem saveNote_of_nonblank (P : Platform) (s : State) (t b : String) (now idNow : Nat)
    (h : trim t ≠ "" ∨ trim b ≠ "") :
    saveNote P s t b now idNow =
      closeModal (renderNotes P
        (saveToLocalStorage P { s with notes := savedNotes s (trim t) (trim b) now idNow })
        (P.toLowerCase s.searchInput)) := by
  have hc : (!truthy (trim t) && !truthy (trim b)) = false := by
    rcases h with h | h <;> simp [truthy, h]
  simp only [saveNote, hc]
  rfl

theorem saveNote_notes (P : Platform) (s : State) (t b : String) (now idNow : Nat) :
    (saveNote P s t b now idNow).notes =
      if trim t = "" ∧ trim b = "" then s.notes
      else savedNotes s (trim t) (trim b) now idNow := by
  by_cases h : trim t = "" ∧ trim b = ""
  · rw [saveNote_of_blank P s t b now idNow h.1 h.2, if_pos h]; rfl
  · rw [saveNote_of_nonblank P s t b now idNow (by tauto), if_neg h]; rfl

theorem savedNotes_of_truthy (s : State) (id t b : String) (now idNow : Nat)
    (hcur : s.currentNoteId = some id) (hid : id ≠ "") :
    savedNotes s t b now idNow = updateNotes s.notes id t b now := by
  simp [savedNotes, hcur, Option.filter, truthy, hid]

theorem savedNotes_of_null (s : State) (t b : String) (now idNow : Nat)
    (hcur : s.currentNoteId = none) :
    savedNotes s t b now idNow = s.notes ++ [newNote t b now idNow] := by
  simp [savedNotes, hcur, Option.filter]

theorem savedNotes_of_emptyId (s : State) (t b : String) (now idNow : Nat)
    (hcur : s.currentNoteId = some "") :
    savedNotes s t b now idNow = s.notes ++ [newNote t b now idNow] := by
  simp [savedNotes, hcur, Option.filter, truthy]

/-! ## `updateNotes` -/

theorem updateNotes_nil (cur t b : String) (now : Nat) : updateNotes [] cur t b now = [] := rfl

theorem updateNotes_cons (n : Note) (ns : List Note) (cur t b : String) (now : Nat) :
    updateNotes (n :: ns) cur t b now =
      if n.id = cur then n.edited t b now :: ns else n :: updateNotes ns cur t b now := by
  unfold updateNotes
  by_cases h : n.id = cur
  · simp [findIndex, h, List.modify]
  · simp only [findIndex, beq_iff_eq, h, if_false]
    cases hf : findIndex (fun n => n.id == cur) ns with
    | none => simp
    | some i => simp [List.modify]

theorem updateNotes_length (ns : List Note) (cur t b : String) (now : Nat) :
    (updateNotes ns cur t b now).length = ns.length := by
  induction ns with
  | nil => rfl
  | cons n ns ih =>
    rw [updateNotes_cons]
    split <;> simp [ih]

theorem updateNotes_map_id (ns : List Note) (cur t b : String) (now : Nat) :
    (updateNotes ns cur t b now).map (·.id) = ns.map (·.id) := by
  induction ns with
  | nil => rfl
  | cons n ns ih =>
    rw [updateNotes_cons]
    split <;> simp [ih, Note.edited]

theorem updateNotes_map_createdAt (ns : List Note) (cur t b : String) (now : Nat) :
    (updateNotes ns cur t b now).map (·.createdAt) = ns.map (·.createdAt) := by
  induction ns with
  | nil => rfl
  | cons n ns ih =>
    rw [updateNotes_cons]
    split <;> simp [ih, Note.edited]

theorem updateNotes_getElem?_of_ne (ns : List Note) (cur t b : String) (now : Nat) :
    ∀ (i : Nat) (n : Note), ns[i]? = some n → n.id ≠ cur →
      (updateNotes ns cur t b now)[i]? = some n := by
  induction ns with
  | nil => intro i n h; simp at h
  | cons m ns ih =>
    intro i n h hne
    rw [updateNotes_cons]
    cases i with
    | zero =>
      simp only [List.getElem?_cons_zero, Option.some.injEq] at h
      subst h
      simp [hne]
    | succ i =>
      simp only [List.getElem?_cons_succ] at h
      split
      · simpa using h
      · simpa using ih i n h hne

theorem updateNotes_find? (ns : List Note) (cur t b : String) (now : Nat)
    (hmem : ∃ n ∈ ns, n.id = cur) :
    ∃ n ∈ ns, n.id = cur ∧
      (updateNotes ns cur t b now).find? (fun m => m.id == cur) = some (n.edited t b now) := by
  induction ns with
  | nil => simp at hmem
  | cons m ns ih =>
    rw [updateNotes_cons]
    by_cases h : m.id = cur
    · refine ⟨m, by simp, h, ?_⟩
      simp [h, Note.edited]
    · obtain ⟨n, hn, hid⟩ := hmem
      have hn' : n ∈ ns := by
        rcases List.mem_cons.1 hn with rfl | hn'
        · exact absurd hid h
        · exact hn'
      obtain ⟨k, hk, hkid, hfind⟩ := ih ⟨n, hn', hid⟩
      refine ⟨k, List.mem_cons_of_mem _ hk, hkid, ?_⟩
      simp [h, hfind]

theorem updateNotes_mem_of_nodup (ns : List Note) (cur t b : String) (now : Nat)
    (hnd : (ns.map (·.id)).Nodup) :
    ∀ m ∈ updateNotes ns cur t b now, m.id = cur → ∃ n ∈ ns, m = n.edited t b now := by
  induction ns with
  | nil => intro m hm; simp [updateNotes_nil] at hm
  | cons n ns ih =>
    intro m hm hid
    rw [updateNotes_cons] at hm
    simp only [List.map_cons, List.nodup_cons, List.mem_map, not_exists, not_and] at hnd
    by_cases h : n.id = cur
    · rw [if_pos h] at hm
      rcases List.mem_cons.1 hm with rfl | hm'
      · exact ⟨n, by simp, rfl⟩
      · exact absurd (h.trans hid.symm).symm (hnd.1 m hm')
    · rw [if_neg h] at hm
      rcases List.mem_cons.1 hm with rfl | hm'
      · exact absurd hid h
      · obtain ⟨k, hk, hke⟩ := ih hnd.2 m hm' hid
        exact ⟨k, List.mem_cons_of_mem _ hk, hke⟩

/-! ## Saving -/

/-- C2: when the trimmed title and the trimmed body are both empty, saving is a
no-op, whatever the state: `saveNote` only closes the modal, so the collection
is the same list, the stored `"notes"` item is untouched and no value is handed
to `setItem`; in particular this holds for the creation of a new note. -/
theorem saveNote_blank_is_noop (P : Platform) (s : State) (title body : String)
    (now idNow : Nat) (ht : trim title = "") (hb : trim body = "") :
    saveNote P s title body now idNow = closeModal s ∧
    (create P s title body now idNow).notes = s.notes ∧
    (create P s title body now idNow).storedNotes = s.storedNotes ∧
    (create P s title body now idNow).writes = s.writes := by
  refine ⟨saveNote_of_blank P s title body now idNow ht hb, ?_, ?_, ?_⟩ <;>
    rw [create, saveNote_of_blank P _ title body now idNow ht hb] <;> rfl

theorem saveNote_blank_is_noop_witness :
    trim "   " = "" ∧ trim "" = "" ∧
    (create samplePlatform (stateOf [noteA]) "   " "" 5 7).notes = [noteA] ∧
    (create samplePlatform (stateOf [noteA]) "   " "" 5 7).writes = [] :=
  ⟨by decide, by decide,
    (saveNote_blank_is_noop samplePlatform (stateOf [noteA]) "   " "" 5 7
      (by decide) (by decide)).2.1,
    (saveNote_blank_is_noop samplePlatform (stateOf [noteA]) "   " "" 5 7
      (by decide) (by decide)).2.2.2⟩

/-- C3: with no note being edited (`currentNoteId` is `null`) and a title or a
body that is not empty after trimming, `saveNote` leaves the prior collection
followed by one new last note, whose title and body are the trimmed inputs and
whose `createdAt` and `updatedAt` are both `now` (its `id` is the decimal text
of the `Date.now()` reading); the value written to the `"notes"` item is the
serialisation of that new collection, and it is the one write made. -/
theorem saveNote_create_appends (P : Platform) (s : State) (title body : String)
    (now idNow : Nat) (hcur : s.currentNoteId = none)
    (h : trim title ≠ "" ∨ trim body ≠ "") :
    (saveNote P s title body now idNow).notes =
      s.notes ++ [{ id := toString idNow, title := trim title, body := trim body,
                    createdAt := now, updatedAt := now }] ∧
    (saveNote P s title body now idNow).storedNotes =
      some (P.stringify (saveNote P s title body now idNow).notes) ∧
    (saveNote P s title body now idNow).writes =
      s.writes ++ [P.stringify (saveNote P s title body now idNow).notes] := by
  rw [saveNote_of_nonblank P s title body now idNow h, savedNotes_of_null s _ _ now idNow hcur]
  exact ⟨rfl, rfl, rfl⟩

theorem saveNote_create_appends_witness :
    (saveNote samplePlatform (openModal (stateOf [noteA]) none) " Hello " "" 5 7).notes =
      [noteA, { id := "7", title := "Hello", body := "", createdAt := 5, updatedAt := 5 }] :=
  (saveNote_create_appends samplePlatform (openModal (stateOf [noteA]) none) " Hello " "" 5 7
    rfl (Or.inl (by decide))).1

/-- C4, as amended: when the identifier of the note being edited is not the
empty string and belongs to a note of the collection, and the title or the body
is not empty after trimming, `saveNote` finds the note and afterwards the note
found under that identifier has the trimmed inputs as title and body and `now`
as `updatedAt`; when the identifiers of the collection are distinct this is so
for every note with that identifier. The new collection is what is written to
the `"notes"` item. -/
theorem saveNote_update_sets_fields (P : Platform) (s : State) (id title body : String)
    (now idNow : Nat) (hcur : s.currentNoteId = some id) (hid : id ≠ "")
    (hmem : ∃ n ∈ s.notes, n.id = id) (h : trim title ≠ "" ∨ trim body ≠ "") :
    (∃ n', (saveNote P s title body now idNow).notes.find? (fun m => m.id == id) = some n' ∧
      n'.title = trim title ∧ n'.body = trim body ∧ n'.updatedAt = now) ∧
    ((s.notes.map (·.id)).Nodup → ∀ m ∈ (saveNote P s title body now idNow).notes,
      m.id = id → m.title = trim title ∧ m.body = trim body ∧ m.updatedAt = now) ∧
    (saveNote P s title body now idNow).storedNotes =
      some (P.stringify (saveNote P s title body now idNow).notes) := by
  rw [saveNote_of_nonblank P s title body now idNow h,
    savedNotes_of_truthy s id _ _ now idNow hcur hid]
  refine ⟨?_, ?_, rfl⟩
  · obtain ⟨n, _, _, hfind⟩ := updateNotes_find? s.notes id (trim title) (trim body) now hmem
    exact ⟨_, hfind, rfl, rfl, rfl⟩
  · intro hnd m hm hmid
    obtain ⟨n, _, rfl⟩ :=
      updateNotes_mem_of_nodup s.notes id (trim title) (trim body) now hnd m hm hmid
    exact ⟨rfl, rfl, rfl⟩

theorem saveNote_update_sets_fields_witness :
    ∃ n', (saveNote samplePlatform (openModal (stateOf [noteA]) (some noteA)) " New " "Body"
        9 9).notes.find? (fun m => m.id == "1") = some n' ∧
      n'.title = trim " New " ∧ n'.body = trim "Body" ∧ n'.updatedAt = 9 :=
  (saveNote_update_sets_fields samplePlatform (openModal (stateOf [noteA]) (some noteA)) "1"
    " New " "Body" 9 9 rfl (by decide) ⟨noteA, by decide, rfl⟩ (Or.inl (by decide))).1

/-- C4 fails as stated. With the note `noteA` open and a blank title and body,
`saveNote` returns at line 151 and the note keeps its title, body and
`updatedAt`. With a note whose identifier is the empty string open, the test of
line 156 fails: a second note is appended and the note under that identifier is
as before. -/
theorem saveNote_update_not_applied :
    ((saveNote samplePlatform (openModal (stateOf [noteA]) (some noteA)) "" "  "
        9 9).notes.find? (fun m => m.id == "1") = some noteA ∧
      noteA.title ≠ trim "" ∧ noteA.body ≠ trim "  " ∧ noteA.updatedAt ≠ 9) ∧
    ((saveNote samplePlatform (openModal (stateOf [noteE]) (some noteE)) "x" "y"
        9 9).notes.find? (fun m => m.id == "") = some noteE ∧
      noteE.title ≠ trim "x" ∧ noteE.body ≠ trim "y" ∧ noteE.updatedAt ≠ 9) := by
  decide

theorem update_notes (P : Platform) (s : State) (id title body : String) (now idNow : Nat)
    (hid : id ≠ "") :
    (update P s id title body now idNow).notes =
      if trim title = "" ∧ trim body = "" then s.notes
      else updateNotes s.notes id (trim title) (trim body) now := by
  rw [update, saveNote_notes, savedNotes_of_truthy (editing s id) id _ _ now idNow rfl hid]
  rfl

theorem delete_notes (P : Platform) (s : State) (id : String) (hid : id ≠ "") :
    (delete P s id).notes = s.notes.filter (fun n => n.id != id) := by
  simp [delete, deleteNote, editing, Option.filter, truthy, hid, closeModal, renderNotes,
    saveToLocalStorage]

/-! ## Substring search -/

theorem startsWith_iff (t q : List Char) : startsWith t q = true ↔ q <+: t := by
  induction t generalizing q with
  | nil => cases q <;> simp [startsWith]
  | cons c t ih =>
    cases q with
    | nil => simp [startsWith]
    | cons d q =>
      simp only [startsWith, Bool.and_eq_true, beq_iff_eq, ih, List.cons_prefix_cons]
      constructor
      · rintro ⟨rfl, h⟩; exact ⟨rfl, h⟩
      · rintro ⟨rfl, h⟩; exact ⟨rfl, h⟩

theorem occursIn_iff (q t : List Char) : occursIn q t = true ↔ q <:+: t := by
  induction t with
  | nil => simp [occursIn, startsWith_iff]
  | cons c t ih =>
    simp only [occursIn, Bool.or_eq_true, startsWith_iff, ih, List.infix_cons_iff]

theorem includes_iff (s q : String) : includes s q = true ↔ q.data <:+: s.data :=
  occursIn_iff q.data s.data

theorem includes_empty (s : String) : includes s "" = true := by
  rw [includes_iff]
  exact List.nil_infix

theorem matchesQuery_iff (P : Platform) (q : String) (n : Note) :
    matchesQuery P q n = true ↔
      q.data <:+: (P.toLowerCase n.title).data ∨ q.data <:+: (P.toLowerCase n.body).data := by
  simp [matchesQuery, includes_iff]

/-! ## The stable sort -/

theorem insertSorted_perm {α : Type} (cmp : α → α → Int) (x : α) (l : List α) :
    (insertSorted cmp x l).Perm (x :: l) := by
  induction l with
  | nil => exact List.Perm.refl _
  | cons y ys ih =>
    simp only [insertSorted]
    split
    · exact List.Perm.refl _
    · exact (List.Perm.cons y ih).trans (List.Perm.swap x y ys)

theorem sort_perm {α : Type} (cmp : α → α → Int) (l : List α) : (sort cmp l).Perm l := by
  induction l with
  | nil => exact List.Perm.refl _
  | cons x xs ih =>
    exact (insertSorted_perm cmp x (sort cmp xs)).trans (List.Perm.cons x ih)

theorem insertSorted_desc (x : Note) (l : List Note)
    (hl : l.Pairwise (fun a b => b.updatedAt ≤ a.updatedAt)) :
    (insertSorted byUpdatedDesc x l).Pairwise (fun a b => b.updatedAt ≤ a.updatedAt) := by
  induction l with
  | nil => simp [insertSorted]
  | cons y ys ih =>
    simp only [insertSorted]
    rw [List.pairwise_cons] at hl
    split
    · rename_i hc
      have hyx : y.updatedAt ≤ x.updatedAt := by
        simp only [byUpdatedDesc] at hc; omega
      refine List.Pairwise.cons ?_ (List.Pairwise.cons hl.1 hl.2)
      intro z hz
      rcases List.mem_cons.1 hz with rfl | hz
      · exact hyx
      · exact le_trans (hl.1 z hz) hyx
    · rename_i hc
      have hxy : x.updatedAt ≤ y.updatedAt := by
        simp only [byUpdatedDesc] at hc; omega
      refine List.Pairwise.cons ?_ (ih hl.2)
      intro z hz
      rcases List.mem_cons.1 ((insertSorted_perm byUpdatedDesc x ys).mem_iff.1 hz) with rfl | hz
      · exact hxy
      · exact hl.1 z hz

theorem sort_desc (l : List Note) :
    (sort byUpdatedDesc l).Pairwise (fun a b => b.updatedAt ≤ a.updatedAt) := by
  induction l with
  | nil => exact List.Pairwise.nil
  | cons x xs ih => exact insertSorted_desc x _ ih

theorem insertSorted_filter_updatedAt (t : Nat) (x : Note) (l : List Note) :
    (insertSorted byUpdatedDesc x l).filter (fun n => n.updatedAt == t) =
      (x :: l).filter (fun n => n.updatedAt == t) := by
  induction l with
  | nil => simp [insertSorted]
  | cons y ys ih =>
    simp only [insertSorted]
    split
    · rfl
    · rename_i hc
      have hxy : x.updatedAt < y.updatedAt := by
        simp only [byUpdatedDesc] at hc; omega
      rw [List.filter_cons, ih]
      by_cases hx : x.updatedAt = t
      · have hy : ¬ y.updatedAt = t := by omega
        simp [List.filter_cons, hx, hy]
      · simp [List.filter_cons, hx]

theorem sort_filter_updatedAt (t : Nat) (l : List Note) :
    (sort byUpdatedDesc l).filter (fun n => n.updatedAt == t) =
      l.filter (fun n => n.updatedAt == t) := by
  induction l with
  | nil => rfl
  | cons x xs ih =>
    simp only [sort]
    rw [insertSorted_filter_updatedAt, List.filter_cons, List.filter_cons, ih]

/-- Two lists in descending order of `updatedAt` in which, for every time
value, the notes with that `updatedAt` are the same and in the same order, are
equal. So the listing is fixed by being sorted and stable, whatever algorithm
the engine uses for `sort`. -/
theorem desc_stable_unique :
    ∀ (l₁ l₂ : List Note),
      l₁.Pairwise (fun a b => b.updatedAt ≤ a.updatedAt) →
      l₂.Pairwise (fun a b => b.updatedAt ≤ a.updatedAt) →
      (∀ t : Nat, l₁.filter (fun n => n.updatedAt == t) =
        l₂.filter (fun n => n.updatedAt == t)) →
      l₁ = l₂ := by
  intro l₁
  induction l₁ with
  | nil =>
    intro l₂ _ _ h
    cases l₂ with
    | nil => rfl
    | cons y l₂ =>
      have := h y.updatedAt
      simp [List.filter_cons] at this
  | cons x l₁ ih =>
    intro l₂ h₁ h₂ h
    cases l₂ with
    | nil =>
      have := h x.updatedAt
      simp [List.filter_cons] at this
    | cons y l₂ =>
      rw [List.pairwise_cons] at h₁ h₂
      have hx : x ∈ (y :: l₂).filter (fun n => n.updatedAt == x.updatedAt) := by
        rw [← h x.updatedAt]; simp [List.filter_cons]
      have hy : y ∈ (x :: l₁).filter (fun n => n.updatedAt == y.updatedAt) := by
        rw [h y.updatedAt]; simp [List.filter_cons]
      have hxy : x.updatedAt ≤ y.updatedAt := by
        rcases List.mem_cons.1 (List.mem_filter.1 hx).1 with e | hm
        · rw [e]
        · exact h₂.1 x hm
      have hyx : y.updatedAt ≤ x.updatedAt := by
        rcases List.mem_cons.1 (List.mem_filter.1 hy).1 with e | hm
        · rw [e]
        · exact h₁.1 y hm
      have hk : y.updatedAt = x.updatedAt := le_antisymm hyx hxy
      have hhead := h x.updatedAt
      simp only [List.filter_cons, hk, beq_self_eq_true, if_true, List.cons.injEq] at hhead
      obtain ⟨rfl, _⟩ := hhead
      congr 1
      refine ih l₂ h₁.2 h₂.2 ?_
      intro t
      have ht := h t
      simp only [List.filter_cons] at ht
      split at ht
      · exact (List.cons.inj ht).2
      · exact ht

/-- Every arrangement of a list that is in descending order of `updatedAt` and
keeps the order of notes with equal `updatedAt` is the one `sort` gives. -/
theorem sort_eq_of_desc_stable (l r : List Note)
    (hr : r.Pairwise (fun a b => b.updatedAt ≤ a.updatedAt))
    (hst : ∀ t : Nat, r.filter (fun n => n.updatedAt == t) =
      l.filter (fun n => n.updatedAt == t)) :
    r = sort byUpdatedDesc l :=
  desc_stable_unique r (sort byUpdatedDesc l) hr (sort_desc l)
    (fun t => (hst t).trans (sort_filter_updatedAt t l).symm)

/-! ## Search and listing -/

/-- C7: after the user types `value` in the search box, the cards shown are,
with multiplicity, the notes of the collection for which the filter holds, and
the filter holds of a note exactly when the lower-cased query occurs as a
contiguous substring in the lower-cased title or in the lower-cased body. So a
note is listed exactly when it is in the collection and matches; nothing outside
the collection is listed; and for the empty query (whose lower-cased text is
empty) every note of the collection is listed. -/
theorem search_lists_matching (P : Platform) (s : State) (value : String) :
    (onSearchInput P s value).rendered.Perm
      (s.notes.filter (matchesQuery P (P.toLowerCase value))) ∧
    (∀ n, matchesQuery P (P.toLowerCase value) n = true ↔
      ((P.toLowerCase value).data <:+: (P.toLowerCase n.title).data ∨
       (P.toLowerCase value).data <:+: (P.toLowerCase n.body).data)) ∧
    (∀ n, n ∈ (onSearchInput P s value).rendered ↔
      n ∈ s.notes ∧
        ((P.toLowerCase value).data <:+: (P.toLowerCase n.title).data ∨
         (P.toLowerCase value).data <:+: (P.toLowerCase n.body).data)) ∧
    (∀ n ∈ (onSearchInput P s value).rendered, n ∈ s.notes) ∧
    (P.toLowerCase "" = "" → (onSearchInput P s "").rendered.Perm s.notes) := by
  have hperm : ∀ v, (onSearchInput P s v).rendered.Perm
      (s.notes.filter (matchesQuery P (P.toLowerCase v))) := fun v => sort_perm _ _
  have hmem : ∀ n, n ∈ (onSearchInput P s value).rendered ↔
      n ∈ s.notes ∧ matchesQuery P (P.toLowerCase value) n = true := by
    intro n
    rw [(hperm value).mem_iff, List.mem_filter]
  refine ⟨hperm value, fun n => matchesQuery_iff P _ n, ?_, ?_, ?_⟩
  · intro n
    rw [hmem n, matchesQuery_iff]
  · intro n hn
    exact ((hmem n).1 hn).1
  · intro h0
    refine (hperm "").trans ?_
    rw [h0, List.filter_eq_self.2]
    intro n _
    simp [matchesQuery, includes_empty]

theorem search_lists_matching_witness :
    samplePlatform.toLowerCase "" = "" ∧
    (onSearchInput samplePlatform (stateOf [noteT1, noteT3]) "").rendered.Perm
      [noteT1, noteT3] :=
  ⟨by decide,
    (search_lists_matching samplePlatform (stateOf [noteT1, noteT3]) "").2.2.2.2 (by decide)⟩

/-- C8: the listed notes are a rearrangement of the notes that match the
query; they are in descending order of `updatedAt` (every listed note has an
`updatedAt` at least that of every note after it); notes with the same
`updatedAt` stand in the order they have in the collection; and three matching
notes stored with `updatedAt` T1, T3, T2, where T1 < T2 < T3, are listed in the
order T3, T2, T1. -/
theorem listed_sorted_stable (P : Platform) (notes : List Note) (q : String) :
    (listedNotes P notes q).Perm (notes.filter (matchesQuery P q)) ∧
    (listedNotes P notes q).Pairwise (fun a b => b.updatedAt ≤ a.updatedAt) ∧
    (∀ t : Nat, (listedNotes P notes q).filter (fun n => n.updatedAt == t) =
      (notes.filter (matchesQuery P q)).filter (fun n => n.updatedAt == t)) ∧
    (∀ a b c : Note, matchesQuery P q a = true → matchesQuery P q b = true →
      matchesQuery P q c = true → a.updatedAt < c.updatedAt → c.updatedAt < b.updatedAt →
      listedNotes P [a, b, c] q = [b, c, a]) := by
  refine ⟨sort_perm _ _, sort_desc _, fun t => sort_filter_updatedAt t _, ?_⟩
  intro a b c ha hb hc hac hcb
  have h1 : ¬ ((c.updatedAt : Int) - b.updatedAt > 0) := by omega
  have h2 : ¬ ((b.updatedAt : Int) - a.updatedAt ≤ 0) := by omega
  have h3 : ¬ ((c.updatedAt : Int) - a.updatedAt ≤ 0) := by omega
  have e1 : insertSorted byUpdatedDesc b [c] = [b, c] := by
    simp [insertSorted, byUpdatedDesc, not_lt.1 h1]
  have e2 : insertSorted byUpdatedDesc a [b, c] = [b, c, a] := by
    simp [insertSorted, byUpdatedDesc, h2, h3]
  simp only [listedNotes, List.filter, ha, hb, hc, sort]
  rw [show insertSorted byUpdatedDesc c [] = [c] from rfl, e1, e2]

theorem listed_sorted_stable_witness :
    listedNotes samplePlatform [noteT1, noteT3, noteT2] "" = [noteT3, noteT2, noteT1] :=
  (listed_sorted_stable samplePlatform [noteT1, noteT3, noteT2] "").2.2.2
    noteT1 noteT3 noteT2 (by decide) (by decide) (by decide) (by decide) (by decide)

/-! ## The decimal text of a number determines the number -/

theorem digitChar_value (d : Nat) (h : d < 10) : (Nat.digitChar d).toNat - 48 = d := by
  interval_cases d <;> rfl

theorem toDigitsCore_foldl (fuel : Nat) :
    ∀ (n : Nat) (ds : List Char), n < fuel →
      (Nat.toDigitsCore 10 fuel n ds).foldl (fun a c => 10 * a + (c.toNat - 48)) 0 =
        ds.foldl (fun a c => 10 * a + (c.toNat - 48)) n := by
  induction fuel with
  | zero => intro n ds h; omega
  | succ fuel ih =>
    intro n ds h
    have hd : (Nat.digitChar (n % 10)).toNat - 48 = n % 10 :=
      digitChar_value _ (Nat.mod_lt _ (by decide))
    simp only [Nat.toDigitsCore]
    split
    · rename_i h0
      have hn : n % 10 = n := by omega
      rw [hn] at hd
      simp only [List.foldl_cons, hn, hd, Nat.mul_zero, Nat.zero_add]
    · rename_i h0
      rw [ih (n / 10) _ (by omega)]
      simp only [List.foldl_cons, hd]
      congr 1
      omega

theorem digitsValue_toString (n : Nat) : digitsValue (toString n).data = n := by
  show digitsValue (Nat.repr n).data = n
  simp only [digitsValue, Nat.repr, Nat.toDigits, List.asString]
  rw [toDigitsCore_foldl (n + 1) n [] (by omega)]
  rfl

theorem toString_injective {m n : Nat} (h : toString m = toString n) : m = n := by
  rw [← digitsValue_toString m, ← digitsValue_toString n, h]

/-! ## The operations on the collection -/

theorem create_notes (P : Platform) (s : State) (title body : String) (now idNow : Nat) :
    (create P s title body now idNow).notes =
      if trim title = "" ∧ trim body = "" then s.notes
      else s.notes ++ [newNote (trim title) (trim body) now idNow] := by
  rw [create, saveNote_notes, savedNotes_of_null (openModal s none) _ _ now idNow rfl]
  rfl

theorem update_notes_emptyId (P : Platform) (s : State) (title body : String)
    (now idNow : Nat) :
    (update P s "" title body now idNow).notes =
      if trim title = "" ∧ trim body = "" then s.notes
      else s.notes ++ [newNote (trim title) (trim body) now idNow] := by
  rw [update, saveNote_notes, savedNotes_of_emptyId (editing s "") _ _ now idNow rfl]
  rfl

theorem delete_notes_emptyId (P : Platform) (s : State) : (delete P s "").notes = s.notes := by
  simp [delete, deleteNote, editing, Option.filter, truthy]

theorem truthy_iff (id : String) : truthy id = true ↔ id ≠ "" := by
  simp [truthy]

theorem run_cons (P : Platform) (s : State) (op : Op) (ops : List Op) :
    run P s (op :: ops) = run P (step P s op) ops := rfl

theorem run_append (P : Platform) (s : State) (pre post : List Op) :
    run P s (pre ++ post) = run P (run P s pre) post := by
  simp [run, List.foldl_append]

theorem updateNotes_mem (ns : List Note) (cur t b : String) (now : Nat) :
    ∀ m ∈ updateNotes ns cur t b now, m ∈ ns ∨ ∃ n ∈ ns, m = n.edited t b now := by
  induction ns with
  | nil => intro m hm; simp [updateNotes_nil] at hm
  | cons n ns ih =>
    intro m hm
    rw [updateNotes_cons] at hm
    split at hm
    · rcases List.mem_cons.1 hm with rfl | hm'
      · exact Or.inr ⟨n, by simp, rfl⟩
      · exact Or.inl (List.mem_cons_of_mem _ hm')
    · rcases List.mem_cons.1 hm with rfl | hm'
      · exact Or.inl (by simp)
      · rcases ih m hm' with h | ⟨k, hk, hke⟩
        · exact Or.inl (List.mem_cons_of_mem _ h)
        · exact Or.inr ⟨k, List.mem_cons_of_mem _ hk, hke⟩

theorem updateNotes_getElem? (ns : List Note) (cur t b : String) (now : Nat) :
    ∀ (i : Nat) (n : Note), ns[i]? = some n →
      (updateNotes ns cur t b now)[i]? = some n ∨
      (updateNotes ns cur t b now)[i]? = some (n.edited t b now) := by
  induction ns with
  | nil => intro i n h; simp at h
  | cons m ns ih =>
    intro i n h
    rw [updateNotes_cons]
    cases i with
    | zero =>
      simp only [List.getElem?_cons_zero, Option.some.injEq] at h
      subst h
      split <;> simp
    | succ i =>
      simp only [List.getElem?_cons_succ] at h
      split
      · left; simpa using h
      · simpa using ih i n h

/-! ## Identifiers along a run -/

theorem idReadings_cons (op : Op) (ops : List Op) :
    idReadings (op :: ops) = idReadings [op] ++ idReadings ops := by
  cases op with
  | create t b now idNow => rfl
  | update id t b now idNow =>
    simp only [idReadings]
    split <;> rfl
  | delete id => rfl

theorem step_ids (P : Platform) (s : State) (op : Op) :
    List.Sublist ((step P s op).notes.map (·.id)) (s.notes.map (·.id)) ∨
    ∃ idNow, idReadings [op] = [idNow] ∧
      (step P s op).notes.map (·.id) = s.notes.map (·.id) ++ [toString idNow] := by
  cases op with
  | create t b now idNow =>
    simp only [step, create_notes]
    split
    · exact Or.inl (List.Sublist.refl _)
    · exact Or.inr ⟨idNow, rfl, by simp [newNote]⟩
  | update id t b now idNow =>
    by_cases hid : id = ""
    · subst hid
      simp only [step, update_notes_emptyId]
      split
      · exact Or.inl (List.Sublist.refl _)
      · exact Or.inr ⟨idNow, by simp [idReadings, truthy], by simp [newNote]⟩
    · simp only [step, update_notes P s id t b now idNow hid]
      split
      · exact Or.inl (List.Sublist.refl _)
      · rw [updateNotes_map_id]
        exact Or.inl (List.Sublist.refl _)
  | delete id =>
    by_cases hid : id = ""
    · subst hid
      simp only [step, delete_notes_emptyId]
      exact Or.inl (List.Sublist.refl _)
    · simp only [step, delete_notes P s id hid]
      exact Or.inl ((List.filter_sublist _).map _)

theorem run_ids_nodup (P : Platform) (ops : List Op) :
    ∀ (s : State) (U : List Nat), (s.notes.map (·.id)).Nodup →
      (∀ i ∈ s.notes.map (·.id), ∃ k ∈ U, i = toString k) →
      (idReadings ops).Nodup → (∀ k ∈ idReadings ops, k ∉ U) →
      ((run P s ops).notes.map (·.id)).Nodup := by
  induction ops with
  | nil => intro s U h _ _ _; exact h
  | cons op ops ih =>
    intro s U hnd hU hr hfresh
    rw [run_cons]
    rw [idReadings_cons] at hr hfresh
    rcases step_ids P s op with hsub | ⟨idNow, hop, hids⟩
    · refine ih (step P s op) U (hnd.sublist hsub) (fun i hi => hU i (hsub.subset hi))
        (hr.sublist (List.sublist_append_right _ _)) ?_
      intro k hk
      exact hfresh k (List.mem_append_right _ hk)
    · rw [hop] at hr hfresh
      have hnew : idNow ∉ U := hfresh idNow (by simp)
      refine ih (step P s op) (idNow :: U) ?_ ?_ ?_ ?_
      · rw [hids, List.nodup_append]
        refine ⟨hnd, List.nodup_singleton _, ?_⟩
        intro i hi hi'
        obtain ⟨k, hk, rfl⟩ := hU i hi
        have : k = idNow := toString_injective (by simpa using hi')
        exact hnew (this ▸ hk)
      · intro i hi
        rw [hids, List.mem_append] at hi
        rcases hi with hi | hi
        · obtain ⟨k, hk, rfl⟩ := hU i hi
          exact ⟨k, List.mem_cons_of_mem _ hk, rfl⟩
        · exact ⟨idNow, by simp, by simpa using hi⟩
      · exact (List.nodup_cons.1 hr).2
      · intro k hk hkU
        rcases List.mem_cons.1 hkU with rfl | hkU
        · exact (List.nodup_cons.1 hr).1 hk
        · exact hfresh k (List.mem_cons_of_mem _ hk) hkU

/-- C9, as amended: starting from the empty collection, after every sequence
of create, update and delete operations in which no two operations that take
the creating branch of `saveNote` are given the same `Date.now()` reading, no
two notes of the collection have the same `id`. -/
theorem ids_unique_of_distinct_readings (P : Platform) (s : State) (ops : List Op)
    (hs : s.notes = []) (hr : (idReadings ops).Nodup) :
    ((run P s ops).notes.map (·.id)).Nodup := by
  refine run_ids_nodup P ops s [] ?_ ?_ hr ?_
  · simp [hs]
  · simp [hs]
  · simp

theorem ids_unique_of_distinct_readings_witness :
    ((run samplePlatform emptyState
      [Op.create "a" "" 1 5, Op.update "5" "b" "" 2 5, Op.create "c" "" 3 6,
        Op.delete "5"]).notes.map (·.id)).Nodup :=
  ids_unique_of_distinct_readings samplePlatform emptyState
    [Op.create "a" "" 1 5, Op.update "5" "b" "" 2 5, Op.create "c" "" 3 6, Op.delete "5"]
    rfl (by decide)

/-- C9 fails as stated: two creations given the same `Date.now()` reading
leave two notes with the same `id`. -/
theorem ids_collide_within_one_millisecond :
    (run samplePlatform emptyState
      [Op.create "a" "" 5 5, Op.create "b" "" 5 5]).notes.map (·.id) = ["5", "5"] ∧
    ¬ ((run samplePlatform emptyState
      [Op.create "a" "" 5 5, Op.create "b" "" 5 5]).notes.map (·.id)).Nodup := by
  decide

/-! ## Timestamps along a run -/

theorem clockReadings_cons (op : Op) (ops : List Op) :
    clockReadings (op :: ops) = clockReadings [op] ++ clockReadings ops := by
  cases op <;> rfl

theorem clockReadings_append (pre post : List Op) :
    clockReadings (pre ++ post) = clockReadings pre ++ clockReadings post := by
  induction pre with
  | nil => rfl
  | cons op pre ih =>
    rw [List.cons_append, clockReadings_cons, ih, clockReadings_cons op pre, List.append_assoc]

theorem step_mem (P : Platform) (s : State) (op : Op) :
    ∀ m ∈ (step P s op).notes, m ∈ s.notes ∨
      ∃ now, clockReadings [op] = [now] ∧ m.updatedAt = now ∧
        (m.createdAt = now ∨ ∃ n ∈ s.notes, m.createdAt = n.createdAt) := by
  intro m hm
  cases op with
  | create t b now idNow =>
    simp only [step, create_notes] at hm
    split at hm
    · exact Or.inl hm
    · rcases List.mem_append.1 hm with h | h
      · exact Or.inl h
      · simp only [List.mem_singleton] at h
        subst h
        exact Or.inr ⟨now, rfl, rfl, Or.inl rfl⟩
  | update id t b now idNow =>
    by_cases hid : id = ""
    · subst hid
      simp only [step, update_notes_emptyId] at hm
      split at hm
      · exact Or.inl hm
      · rcases List.mem_append.1 hm with h | h
        · exact Or.inl h
        · simp only [List.mem_singleton] at h
          subst h
          exact Or.inr ⟨now, rfl, rfl, Or.inl rfl⟩
    · simp only [step, update_notes P s id t b now idNow hid] at hm
      split at hm
      · exact Or.inl hm
      · rcases updateNotes_mem _ _ _ _ _ m hm with h | ⟨n, hn, rfl⟩
        · exact Or.inl h
        · exact Or.inr ⟨now, rfl, rfl, Or.inr ⟨n, hn, rfl⟩⟩
  | delete id =>
    by_cases hid : id = ""
    · subst hid
      simp only [step, delete_notes_emptyId] at hm
      exact Or.inl hm
    · simp only [step, delete_notes P s id hid] at hm
      exact Or.inl (List.mem_filter.1 hm).1

theorem run_timestamps (P : Platform) (ops : List Op) :
    ∀ (s : State) (B : List Nat),
      (∀ n ∈ s.notes, n.createdAt ≤ n.updatedAt ∧
        ∀ r ∈ clockReadings ops ++ B, n.updatedAt ≤ r) →
      (clockReadings ops ++ B).Pairwise (· ≤ ·) →
      ∀ n ∈ (run P s ops).notes, n.createdAt ≤ n.updatedAt ∧ ∀ r ∈ B, n.updatedAt ≤ r := by
  induction ops with
  | nil =>
    intro s B h _ n hn
    exact ⟨(h n hn).1, fun r hr => (h n hn).2 r (by simpa [clockReadings] using hr)⟩
  | cons op ops ih =>
    intro s B h hp
    rw [run_cons]
    rw [clockReadings_cons, List.append_assoc] at hp
    have hp' := List.pairwise_append.1 hp
    refine ih (step P s op) B ?_ hp'.2.1
    intro m hm
    rcases step_mem P s op m hm with hold | ⟨now, hop, hup, hcr⟩
    · refine ⟨(h m hold).1, fun r hr => (h m hold).2 r ?_⟩
      rw [clockReadings_cons, List.append_assoc]
      exact List.mem_append_right _ hr
    · have hnow : ∀ r ∈ clockReadings ops ++ B, now ≤ r := fun r hr =>
        hp'.2.2 now (by simp [hop]) r hr
      refine ⟨?_, fun r hr => hup ▸ hnow r hr⟩
      rcases hcr with hc | ⟨n, hn, hc⟩
      · omega
      · have h1 := (h n hn).1
        have h2 := (h n hn).2 now (by rw [clockReadings_cons, hop]; simp)
        omega

theorem update_getElem? (P : Platform) (s : State) (id title body : String)
    (now idNow : Nat) :
    ∀ (i : Nat) (n : Note), s.notes[i]? = some n →
      (update P s id title body now idNow).notes[i]? = some n ∨
      (update P s id title body now idNow).notes[i]? =
        some (n.edited (trim title) (trim body) now) := by
  intro i n h
  by_cases hid : id = ""
  · subst hid
    rw [update_notes_emptyId]
    split
    · exact Or.inl h
    · left
      have hi : i < s.notes.length := by
        rcases Nat.lt_or_ge i s.notes.length with hlt | hge
        · exact hlt
        · rw [List.getElem?_eq_none hge] at h; cases h
      rw [List.getElem?_append_left hi]
      exact h
  · rw [update_notes P s id title body now idNow hid]
    split
    · exact Or.inl h
    · exact updateNotes_getElem? _ _ _ _ _ i n h

/-- C10, as amended: starting from the empty collection, after every sequence
of create, update and delete operations during which the readings of
`new Date()` never decrease from one operation to the next, every note has
`createdAt <= updatedAt`; and each update of such a sequence leaves at every
position a note with the same `id` whose `updatedAt` is at least what it was. -/
theorem timestamps_ordered_of_monotone_clock (P : Platform) (s : State) (ops : List Op)
    (hs : s.notes = []) (hclock : (clockReadings ops).Pairwise (· ≤ ·)) :
    (∀ n ∈ (run P s ops).notes, n.createdAt ≤ n.updatedAt) ∧
    (∀ (pre post : List Op) (id title body : String) (now idNow : Nat),
      ops = pre ++ Op.update id title body now idNow :: post →
      ∀ (i : Nat) (n : Note), (run P s pre).notes[i]? = some n →
        ∃ n', (run P s (pre ++ [Op.update id title body now idNow])).notes[i]? = some n' ∧
          n'.id = n.id ∧ n.updatedAt ≤ n'.updatedAt) := by
  constructor
  · intro n hn
    refine (run_timestamps P ops s [] ?_ (by simpa using hclock) n hn).1
    intro m hm
    simp [hs] at hm
  · intro pre post id title body now idNow hops i n hi
    have hpre : ∀ m ∈ (run P s pre).notes, m.createdAt ≤ m.updatedAt ∧
        ∀ r ∈ [now], m.updatedAt ≤ r := by
      refine run_timestamps P pre s [now] ?_ ?_
      · intro m hm
        simp [hs] at hm
      · rw [hops, clockReadings_append, clockReadings_cons] at hclock
        refine hclock.sublist ?_
        refine List.Sublist.append_left ?_ _
        show List.Sublist [now] ((now :: []) ++ clockReadings post)
        exact List.sublist_append_left _ _
    have hle : n.updatedAt ≤ now :=
      (hpre n (List.getElem?_mem hi)).2 now (by simp)
    rw [run_append]
    show ∃ n', (update P (run P s pre) id title body now idNow).notes[i]? = some n' ∧ _
    rcases update_getElem? P (run P s pre) id title body now idNow i n hi with h | h
    · exact ⟨n, h, rfl, le_refl _⟩
    · exact ⟨_, h, rfl, hle⟩

theorem timestamps_ordered_of_monotone_clock_witness :
    (clockReadings [Op.create "a" "" 10 10, Op.update "10" "b" "" 12 12]).Pairwise (· ≤ ·) ∧
    (run samplePlatform emptyState
      [Op.create "a" "" 10 10, Op.update "10" "b" "" 12 12]).notes =
      [{ id := "10", title := "b", body := "", createdAt := 10, updatedAt := 12 }] ∧
    (10 : Nat) ≤ 12 :=
  ⟨by decide, by decide,
    (timestamps_ordered_of_monotone_clock samplePlatform emptyState
      [Op.create "a" "" 10 10, Op.update "10" "b" "" 12 12] rfl (by decide)).1
      { id := "10", title := "b", body := "", createdAt := 10, updatedAt := 12 } (by decide)⟩

/-- C10 fails as stated: when the clock shows an earlier time at the update
than it did at the creation, the note is left with `updatedAt` before
`createdAt`, and its `updatedAt` has decreased. -/
theorem timestamps_disordered_by_clock_step_back :
    (run samplePlatform emptyState [Op.create "a" "" 10 10]).notes =
      [{ id := "10", title := "a", body := "", createdAt := 10, updatedAt := 10 }] ∧
    (run samplePlatform emptyState
      [Op.create "a" "" 10 10, Op.update "10" "b" "" 5 5]).notes =
      [{ id := "10", title := "b", body := "", createdAt := 10, updatedAt := 5 }] ∧
    ¬ ∀ n ∈ (run samplePlatform emptyState
      [Op.create "a" "" 10 10, Op.update "10" "b" "" 5 5]).notes,
      n.createdAt ≤ n.updatedAt := by
  decide

/-! ## The identifiers the app assigns -/

theorem toString_ne_empty (k : Nat) : toString k ≠ "" := by
  intro h
  have hk : digitsValue (toString k).data = k := digitsValue_toString k
  rw [h] at hk
  have h0 : k = 0 := hk.symm
  subst h0
  revert h
  decide

theorem run_ids_assigned (P : Platform) (ops : List Op) :
    ∀ s : State, (∀ i ∈ s.notes.map (·.id), ∃ k : Nat, i = toString k) →
      ∀ i ∈ (run P s ops).notes.map (·.id), ∃ k : Nat, i = toString k := by
  induction ops with
  | nil => intro s h; exact h
  | cons op ops ih =>
    intro s h
    rw [run_cons]
    refine ih (step P s op) ?_
    intro i hi
    rcases step_ids P s op with hsub | ⟨idNow, _, hids⟩
    · exact h i (hsub.subset hi)
    · rw [hids, List.mem_append] at hi
      rcases hi with hi | hi
      · exact h i hi
      · exact ⟨idNow, by simpa using hi⟩

theorem run_ids_ne_empty (P : Platform) (s₀ : State) (ops : List Op) (hs : s₀.notes = []) :
    ∀ n ∈ (run P s₀ ops).notes, n.id ≠ "" := by
  intro n hn
  obtain ⟨k, hk⟩ := run_ids_assigned P ops s₀ (by simp [hs]) n.id (List.mem_map_of_mem _ hn)
  rw [hk]
  exact toString_ne_empty k

theorem delete_notes_of (P : Platform) (s : State) (id : String)
    (h : id ≠ "" ∨ ∀ n ∈ s.notes, n.id ≠ "") :
    (delete P s id).notes = s.notes.filter (fun n => n.id != id) := by
  by_cases hid : id = ""
  · subst hid
    have hall : ∀ n ∈ s.notes, n.id ≠ "" := by
      rcases h with h | h
      · exact absurd rfl h
      · exact h
    rw [delete_notes_emptyId, List.filter_eq_self.2]
    intro n hn
    simpa using hall n hn
  · exact delete_notes P s id hid

theorem delete_keeps_condition (P : Platform) (s : State) (id : String)
    (h : id ≠ "" ∨ ∀ n ∈ s.notes, n.id ≠ "") :
    id ≠ "" ∨ ∀ n ∈ (delete P s id).notes, n.id ≠ "" := by
  rcases h with h | h
  · exact Or.inl h
  · refine Or.inr ?_
    intro n hn
    rw [delete_notes_of P s id (Or.inr h)] at hn
    exact h n (List.mem_filter.1 hn).1

theorem delete_spec (P : Platform) (s : State) (id : String)
    (h : id ≠ "" ∨ ∀ n ∈ s.notes, n.id ≠ "") :
    (delete P s id).notes = s.notes.filter (fun n => n.id != id) ∧
    List.Sublist (delete P s id).notes s.notes ∧
    (∀ n, n ∈ (delete P s id).notes ↔ n ∈ s.notes ∧ n.id ≠ id) ∧
    ((∀ n ∈ s.notes, n.id ≠ id) → (delete P s id).notes = s.notes) ∧
    (delete P (delete P s id) id).notes = (delete P s id).notes := by
  rw [delete_notes_of P (delete P s id) id (delete_keeps_condition P s id h),
    delete_notes_of P s id h]
  refine ⟨rfl, List.filter_sublist _, ?_, ?_, ?_⟩
  · intro n; simp
  · intro hno
    exact List.filter_eq_self.2 (fun n hn => by simpa using hno n hn)
  · simp [List.filter_filter]

theorem update_frame_of_ne_empty (P : Platform) (s : State) (id title body : String)
    (now idNow : Nat) (hid : id ≠ "") :
    (update P s id title body now idNow).notes.length = s.notes.length ∧
    (update P s id title body now idNow).notes.map (·.id) = s.notes.map (·.id) ∧
    (update P s id title body now idNow).notes.map (·.createdAt) =
      s.notes.map (·.createdAt) ∧
    (∀ (i : Nat) (n : Note), s.notes[i]? = some n → n.id ≠ id →
      (update P s id title body now idNow).notes[i]? = some n) := by
  rw [update_notes P s id title body now idNow hid]
  split
  · exact ⟨rfl, rfl, rfl, fun _ _ h _ => h⟩
  · exact ⟨updateNotes_length _ _ _ _ _, updateNotes_map_id _ _ _ _ _,
      updateNotes_map_createdAt _ _ _ _ _, updateNotes_getElem?_of_ne _ _ _ _ _⟩

/-! ## Update and delete -/

/-- C5: an update leaves the number of notes unchanged, leaves the identifiers
and the `createdAt` values position by position unchanged (so the order too),
and leaves every note whose identifier differs from the given one where it was
and as it was. This holds for every collection, every title and body and every
identifier that is not the empty string, whether or not a note has it; in
particular for every identifier the app assigns, the decimal text of a
`Date.now()` reading (line 165), which are the identifiers of the notes of
every collection built from the empty one. -/
theorem update_frame (P : Platform) :
    (∀ (s : State) (id title body : String) (now idNow : Nat), id ≠ "" →
      (update P s id title body now idNow).notes.length = s.notes.length ∧
      (update P s id title body now idNow).notes.map (·.id) = s.notes.map (·.id) ∧
      (update P s id title body now idNow).notes.map (·.createdAt) =
        s.notes.map (·.createdAt) ∧
      (∀ (i : Nat) (n : Note), s.notes[i]? = some n → n.id ≠ id →
        (update P s id title body now idNow).notes[i]? = some n)) ∧
    (∀ (s : State) (k : Nat) (title body : String) (now idNow : Nat),
      (update P s (toString k) title body now idNow).notes.length = s.notes.length ∧
      (update P s (toString k) title body now idNow).notes.map (·.id) =
        s.notes.map (·.id) ∧
      (update P s (toString k) title body now idNow).notes.map (·.createdAt) =
        s.notes.map (·.createdAt) ∧
      (∀ (i : Nat) (n : Note), s.notes[i]? = some n → n.id ≠ toString k →
        (update P s (toString k) title body now idNow).notes[i]? = some n)) ∧
    (∀ (s₀ : State) (ops : List Op), s₀.notes = [] →
      ∀ n ∈ (run P s₀ ops).notes, ∃ k : Nat, n.id = toString k) := by
  refine ⟨?_, ?_, ?_⟩
  · intro s id title body now idNow hid
    exact update_frame_of_ne_empty P s id title body now idNow hid
  · intro s k title body now idNow
    exact update_frame_of_ne_empty P s (toString k) title body now idNow (toString_ne_empty k)
  · intro s₀ ops hs n hn
    exact run_ids_assigned P ops s₀ (by simp [hs]) n.id (List.mem_map_of_mem _ hn)

theorem update_frame_witness :
    (update samplePlatform (stateOf [noteT1, noteA, noteT2]) "1" " x " "y" 9 9).notes =
      [noteT1, { id := "1", title := "x", body := "y", createdAt := 1, updatedAt := 9 },
        noteT2] ∧
    (update samplePlatform (stateOf [noteT1, noteA, noteT2]) "1" " x " "y" 9 9).notes.length =
      3 ∧
    (update samplePlatform (stateOf [noteT1, noteA, noteT2]) "1" " x " "y" 9 9).notes.map
      (·.id) = ["10", "1", "12"] :=
  ⟨by decide,
    ((update_frame samplePlatform).1 (stateOf [noteT1, noteA, noteT2]) "1" " x " "y" 9 9
      (by decide)).1,
    ((update_frame samplePlatform).1 (stateOf [noteT1, noteA, noteT2]) "1" " x " "y" 9 9
      (by decide)).2.1⟩

/-- C6: a confirmed delete leaves exactly the notes whose identifier differs
from the given one, in their prior order; when no note has the identifier the
collection is unchanged; and deleting the same identifier a second time changes
nothing more. This holds for every collection and every identifier for which
`confirm` is called, that is every identifier but the empty string (line 180),
and for the empty string too when no note has it; no note of a collection built
from the empty one has it, so there it holds for every identifier. -/
theorem delete_removes (P : Platform) :
    (∀ (s : State) (id : String), (id ≠ "" ∨ ∀ n ∈ s.notes, n.id ≠ "") →
      (delete P s id).notes = s.notes.filter (fun n => n.id != id) ∧
      List.Sublist (delete P s id).notes s.notes ∧
      (∀ n, n ∈ (delete P s id).notes ↔ n ∈ s.notes ∧ n.id ≠ id) ∧
      ((∀ n ∈ s.notes, n.id ≠ id) → (delete P s id).notes = s.notes) ∧
      (delete P (delete P s id) id).notes = (delete P s id).notes) ∧
    (∀ (s₀ : State) (ops : List Op) (id : String), s₀.notes = [] →
      (delete P (run P s₀ ops) id).notes =
        (run P s₀ ops).notes.filter (fun n => n.id != id) ∧
      List.Sublist (delete P (run P s₀ ops) id).notes (run P s₀ ops).notes ∧
      (∀ n, n ∈ (delete P (run P s₀ ops) id).notes ↔ n ∈ (run P s₀ ops).notes ∧ n.id ≠ id) ∧
      ((∀ n ∈ (run P s₀ ops).notes, n.id ≠ id) →
        (delete P (run P s₀ ops) id).notes = (run P s₀ ops).notes) ∧
      (delete P (delete P (run P s₀ ops) id) id).notes =
        (delete P (run P s₀ ops) id).notes) := by
  refine ⟨?_, ?_⟩
  · intro s id h
    exact delete_spec P s id h
  · intro s₀ ops id hs
    exact delete_spec P (run P s₀ ops) id (Or.inr (run_ids_ne_empty P s₀ ops hs))

theorem delete_removes_witness :
    (delete samplePlatform (stateOf [noteT1, noteA, noteT2]) "1").notes = [noteT1, noteT2] ∧
    (delete samplePlatform (delete samplePlatform (stateOf [noteT1, noteA, noteT2]) "1")
      "1").notes = (delete samplePlatform (stateOf [noteT1, noteA, noteT2]) "1").notes ∧
    (delete samplePlatform (run samplePlatform emptyState [Op.create "a" "" 1 5]) "").notes =
      (run samplePlatform emptyState [Op.create "a" "" 1 5]).notes.filter
        (fun n => n.id != "") :=
  ⟨((delete_removes samplePlatform).1 (stateOf [noteT1, noteA, noteT2]) "1"
      (Or.inl (by decide))).1.trans (by decide),
    ((delete_removes samplePlatform).1 (stateOf [noteT1, noteA, noteT2]) "1"
      (Or.inl (by decide))).2.2.2.2,
    ((delete_removes samplePlatform).2 emptyState [Op.create "a" "" 1 5] "" rfl).1⟩

end NotesApp
